import Mathlib

/-!
Verification of the asynchronous task coordination utilities of the
`allahbin-utils` repository, against its natural-language specification.

The TypeScript sources under `src/uniapp/uniUtils.ts` and
`src/uniapp/cloudUtils/index.ts` are shallowly embedded below: promises
becoming `Except`-valued computations, the awaited delays becoming an
explicit trace of waited durations, and the cloud `app.callFunction`
backend becoming an oracle `Nat → Except E (CallResult V)` giving the
outcome of each successive underlying invocation.

Components of the async core that the repository only re-exports
(`asyncUtils`: the bounded concurrency runner, the async memoizer and the
timeout racer) are modelled from the specification text, as noted on each
definition.
-/

namespace AllahbinUtils

/-- The value resolved by the cloud backend: `app.callFunction` resolves an
object whose `result` field is what `callCloudFunction` returns. -/
structure CallResult (V : Type) where
  result : V
  deriving Repr, DecidableEq

/-- Embedding of `handleError` (src/uniapp/uniUtils.ts lines 29-33): it logs a
message built from the context and then rethrows the very same error value.
The log is a side effect invisible to callers; the observable behaviour is
the rethrow of `error` itself. -/
def handleError (E V : Type) (error : E) : Except E V :=
  Except.error error

/-- Embedding of `callCloudFunction` (src/uniapp/uniUtils.ts lines 68-86):
awaits the backend, returns `result.result` on success, and on failure runs
`handleError`, which rethrows the same error. `underlying` is the settled
outcome of the single `app.callFunction` invocation. -/
def callCloudFunction {E V : Type} (underlying : Except E (CallResult V)) :
    Except E V :=
  match underlying with
  | Except.ok r => Except.ok r.result
  | Except.error e => handleError E V e

/-- The observable trace of one run of a retry loop: the settled outcome
(`Except.error none` models throwing the never-assigned `lastError`, i.e.
`undefined`, when the loop body never runs), the list of awaited delay
durations in milliseconds, in order, and the number of attempts made. -/
structure RetryTrace (E V : Type) where
  result : Except (Option E) V
  delays : List Nat
  calls : Nat
  deriving Repr

/-- Embedding of the `for` loop of `callCloudFunctionWithRetry`
(src/uniapp/uniUtils.ts lines 104-118). `i` is the loop index, `fuel` the
number of iterations still to run (so the source guard `i < retryCount - 1`
holds exactly when `fuel` is not the last iteration), and `lastError` the
current value of the `lastError` variable. Each failing non-final iteration
awaits `setTimeout(..., 1000 * (i + 1))`. -/
def retryLoop {E V : Type} (attempt : Nat → Except E V) (i : Nat) :
    Nat → Option E → RetryTrace E V
  | 0, lastError => ⟨Except.error lastError, [], 0⟩
  | fuel + 1, _ =>
    match attempt i with
    | Except.ok v => ⟨Except.ok v, [], 1⟩
    | Except.error e =>
      let d : List Nat := if fuel = 0 then [] else [1000 * (i + 1)]
      let rest := retryLoop attempt (i + 1) fuel (some e)
      ⟨rest.result, d ++ rest.delays, rest.calls + 1⟩

/-- Embedding of `callCloudFunctionWithRetry` (src/uniapp/uniUtils.ts lines
97-119): runs `callCloudFunction` up to `retryCount` times against the
successive backend outcomes `app 0, app 1, ...`, with the loop embedded by
`retryLoop`. -/
def callCloudFunctionWithRetry {E V : Type}
    (app : Nat → Except E (CallResult V)) (retryCount : Nat) :
    RetryTrace E V :=
  retryLoop (fun i => callCloudFunction (app i)) 0 retryCount none

/-- Embedding of `cloudUtils.call` (src/uniapp/cloudUtils/index.ts lines
29-47), written out separately from `callCloudFunction` because the two
files each define their own copy. -/
def cloudUtils_call {E V : Type} (underlying : Except E (CallResult V)) :
    Except E V :=
  match underlying with
  | Except.ok r => Except.ok r.result
  | Except.error e => handleError E V e

/-- Embedding of the `for` loop of `cloudUtils.callWithRetry`
(src/uniapp/cloudUtils/index.ts lines 65-79), kept as its own recursion to
mirror the duplicated source. -/
def cloudRetryLoop {E V : Type} (attempt : Nat → Except E V) (i : Nat) :
    Nat → Option E → RetryTrace E V
  | 0, lastError => ⟨Except.error lastError, [], 0⟩
  | fuel + 1, _ =>
    match attempt i with
    | Except.ok v => ⟨Except.ok v, [], 1⟩
    | Except.error e =>
      let d : List Nat := if fuel = 0 then [] else [1000 * (i + 1)]
      let rest := cloudRetryLoop attempt (i + 1) fuel (some e)
      ⟨rest.result, d ++ rest.delays, rest.calls + 1⟩

/-- Embedding of `cloudUtils.callWithRetry` (src/uniapp/cloudUtils/index.ts
lines 58-80): `this.call` applied to the successive backend outcomes. -/
def cloudUtils_callWithRetry {E V : Type}
    (app : Nat → Except E (CallResult V)) (retryCount : Nat) :
    RetryTrace E V :=
  cloudRetryLoop (fun i => cloudUtils_call (app i)) 0 retryCount none

/-! ### Lemmas about the retry loop -/

/-- When every attempt in the window fails, the loop ends with the error of
the last attempt of the window. -/
theorem retryLoop_all_fail {E V : Type} (attempt : Nat → Except E V)
    (f : Nat → E) (i fuel : Nat) (le : Option E)
    (hfail : ∀ j, i ≤ j → j < i + fuel → attempt j = Except.error (f j)) :
    (retryLoop attempt i fuel le).result =
      Except.error (if fuel = 0 then le else some (f (i + fuel - 1))) := by
  induction fuel generalizing i le with
  | zero => simp [retryLoop]
  | succ n ih =>
    have hi : attempt i = Except.error (f i) :=
      hfail i le_rfl (by omega)
    rcases Nat.eq_zero_or_pos n with hn | hn
    · subst hn
      simp [retryLoop, hi]
    · have hrec := ih (i + 1) (some (f i))
        (fun j h1 h2 => hfail j (by omega) (by omega))
      have hne : ¬ (n = 0) := by omega
      have harg : i + 1 + n - 1 = i + (n + 1) - 1 := by omega
      simp only [retryLoop, hi]
      rw [hrec, if_neg hne, harg, if_neg (Nat.succ_ne_zero n)]

/-- The loop makes at most `fuel` attempts. -/
theorem retryLoop_calls_le {E V : Type} (attempt : Nat → Except E V)
    (i fuel : Nat) (le : Option E) :
    (retryLoop attempt i fuel le).calls ≤ fuel := by
  induction fuel generalizing i le with
  | zero => simp [retryLoop]
  | succ n ih =>
    cases h : attempt i with
    | ok v => simp [retryLoop, h]
    | error e =>
      simp only [retryLoop, h]
      have := ih (i + 1) (some e)
      omega

/-- If the attempts at indices `i, ..., k-1` fail and the attempt at `k`
succeeds with `v`, the loop returns `v` after exactly `k - i + 1` attempts. -/
theorem retryLoop_first_success {E V : Type} (attempt : Nat → Except E V)
    (f : Nat → E) (v : V) (i k fuel : Nat) (le : Option E)
    (hik : i ≤ k) (hk : k < i + fuel)
    (hfail : ∀ j, i ≤ j → j < k → attempt j = Except.error (f j))
    (hsucc : attempt k = Except.ok v) :
    (retryLoop attempt i fuel le).result = Except.ok v ∧
      (retryLoop attempt i fuel le).calls = k - i + 1 := by
  induction fuel generalizing i le with
  | zero => omega
  | succ n ih =>
    rcases Nat.eq_or_lt_of_le hik with heq | hlt
    · subst heq
      simp [retryLoop, hsucc]
    · have hi : attempt i = Except.error (f i) := hfail i le_rfl hlt
      have hrec := ih (i + 1) (some (f i)) (by omega) (by omega)
        (fun j h1 h2 => hfail j (by omega) h2)
      simp only [retryLoop, hi]
      refine ⟨hrec.1, ?_⟩
      rw [hrec.2]
      omega

/-- The delays awaited by the loop started at index `i` are exactly
`1000 * (i + 1), 1000 * (i + 2), ...`, one per attempt other than the
last attempt made. -/
theorem retryLoop_delays {E V : Type} (attempt : Nat → Except E V)
    (i fuel : Nat) (le : Option E) :
    (retryLoop attempt i fuel le).delays =
      (List.range ((retryLoop attempt i fuel le).calls - 1)).map
        (fun j => 1000 * (i + j + 1)) := by
  induction fuel generalizing i le with
  | zero => simp [retryLoop]
  | succ n ih =>
    cases h : attempt i with
    | ok v => simp [retryLoop, h]
    | error e =>
      rcases Nat.eq_zero_or_pos n with hn | hn
      · subst hn
        simp [retryLoop, h]
      · have hcalls : 1 ≤ (retryLoop attempt (i + 1) n (some e)).calls := by
          cases n with
          | zero => omega
          | succ m =>
            cases h2 : attempt (i + 1) with
            | ok v => simp [retryLoop, h2]
            | error e2 => simp [retryLoop, h2]
        have hne : ¬ (n = 0) := by omega
        simp only [retryLoop, h, hne, if_false]
        rw [ih (i + 1) (some e)]
        obtain ⟨m, hm⟩ : ∃ m, (retryLoop attempt (i + 1) n (some e)).calls
            = m + 1 := ⟨_, (Nat.succ_pred_eq_of_pos hcalls).symm⟩
        rw [hm]
        simp only [Nat.add_sub_cancel, List.range_succ_eq_map, List.map_map,
          List.map_cons, List.singleton_append, List.cons.injEq]
        refine ⟨trivial, ?_⟩
        apply List.map_congr_left
        intro a _
        simp only [Function.comp_apply]
        omega

/-- `cloudRetryLoop` and `retryLoop` agree attempt for attempt. -/
theorem cloudRetryLoop_eq_retryLoop {E V : Type} (attempt : Nat → Except E V)
    (i fuel : Nat) (le : Option E) :
    cloudRetryLoop attempt i fuel le = retryLoop attempt i fuel le := by
  induction fuel generalizing i le with
  | zero => rfl
  | succ n ih =>
    cases h : attempt i with
    | ok v => simp [cloudRetryLoop, retryLoop, h]
    | error e => simp [cloudRetryLoop, retryLoop, h, ih]


/-! ### Claims about the retry executor -/

/-- Claim C1: for every operation and every `maxAttempts ≥ 1`, if every one
of the `maxAttempts` invocations fails, the retry executor fails with
exactly the failure value observed on the final attempt; earlier failures
do not appear in the result in any form. -/
theorem retry_all_fail_last_error {E V : Type}
    (app : Nat → Except E (CallResult V)) (f : Nat → E) (n : Nat)
    (hn : 1 ≤ n) (hfail : ∀ i, i < n → app i = Except.error (f i)) :
    (callCloudFunctionWithRetry app n).result =
      Except.error (some (f (n - 1))) := by
  have h := retryLoop_all_fail (fun i => callCloudFunction (app i)) f 0 n none
    (fun j h1 h2 => by
      simp [callCloudFunction, hfail j (by omega), handleError])
  rw [callCloudFunctionWithRetry, h, if_neg (by omega : ¬ n = 0)]
  have harg : 0 + n - 1 = n - 1 := by omega
  rw [harg]

/-- Witness for C1: three attempts, failing with errors 0, 1, 2 in turn; the
final outcome is exactly the last error, 2. -/
theorem retry_all_fail_last_error_witness :
    1 ≤ 3 ∧
    (callCloudFunctionWithRetry
        (fun i => Except.error i : Nat → Except Nat (CallResult Nat))
        3).result = Except.error (some 2) :=
  ⟨by decide,
    retry_all_fail_last_error (fun i => Except.error i) (fun i => i) 3
      (by decide) (fun i _ => rfl)⟩

/-- Counterexample to claim C2 as stated: with three attempts all failing,
the executor waits 1000 ms before the second attempt but 2000 ms before the
third, so the inter-attempt delays are not one fixed duration. -/
theorem retry_fixed_delay_counterexample :
    (callCloudFunctionWithRetry
        (fun i => Except.error i : Nat → Except Nat (CallResult Nat))
        3).delays = [1000, 2000] ∧
    (callCloudFunctionWithRetry
        (fun i => Except.error i : Nat → Except Nat (CallResult Nat))
        3).delays.get? 0 ≠
      (callCloudFunctionWithRetry
        (fun i => Except.error i : Nat → Except Nat (CallResult Nat))
        3).delays.get? 1 := by decide

/-- Claim C2 amended: after the `j`-th failed attempt (1-based) with at
least one attempt remaining, the executor waits exactly `1000 * j`
milliseconds — a linearly increasing backoff, not a fixed duration — and it
performs no wait after the final attempt: the delays awaited are exactly
`1000 * 1, 1000 * 2, ...`, one per attempt other than the last. -/
theorem retry_delay_linear_backoff {E V : Type}
    (app : Nat → Except E (CallResult V)) (n : Nat) :
    (callCloudFunctionWithRetry app n).delays =
      (List.range ((callCloudFunctionWithRetry app n).calls - 1)).map
        (fun j => 1000 * (j + 1)) := by
  rw [callCloudFunctionWithRetry, retryLoop_delays]
  exact List.map_congr_left (fun a _ => by omega)

/-- Claim C3: the retry executor invokes the operation at most
`maxAttempts` times; if the attempt at 0-based index `k` (`k < maxAttempts`)
is the first to succeed, the executor returns that attempt's value and the
operation was invoked exactly `k + 1` times. -/
theorem retry_first_success {E V : Type}
    (app : Nat → Except E (CallResult V)) (f : Nat → E) (r : CallResult V)
    (n k : Nat) (hk : k < n)
    (hfail : ∀ i, i < k → app i = Except.error (f i))
    (hsucc : app k = Except.ok r) :
    (callCloudFunctionWithRetry app n).result = Except.ok r.result ∧
    (callCloudFunctionWithRetry app n).calls = k + 1 ∧
    (callCloudFunctionWithRetry app n).calls ≤ n := by
  have h := retryLoop_first_success (fun i => callCloudFunction (app i)) f
    r.result 0 k n none (by omega) (by omega)
    (fun j h1 h2 => by simp [callCloudFunction, hfail j h2, handleError])
    (by simp [callCloudFunction, hsucc])
  rw [callCloudFunctionWithRetry]
  refine ⟨h.1, ?_, retryLoop_calls_le _ 0 n none⟩
  rw [h.2]
  omega

/-- Witness for C3: the first attempt fails with error 7 and the second
succeeds with 42; the executor returns 42 after exactly 2 of the allowed 3
invocations. -/
theorem retry_first_success_witness :
    1 < 3 ∧
    (callCloudFunctionWithRetry
        (fun i => if i = 0 then Except.error 7 else Except.ok ⟨42⟩ :
          Nat → Except Nat (CallResult Nat)) 3).result = Except.ok 42 ∧
    (callCloudFunctionWithRetry
        (fun i => if i = 0 then Except.error 7 else Except.ok ⟨42⟩ :
          Nat → Except Nat (CallResult Nat)) 3).calls = 2 ∧
    (callCloudFunctionWithRetry
        (fun i => if i = 0 then Except.error 7 else Except.ok ⟨42⟩ :
          Nat → Except Nat (CallResult Nat)) 3).calls ≤ 3 :=
  ⟨by decide,
    retry_first_success
      (fun i => if i = 0 then Except.error 7 else Except.ok ⟨42⟩)
      (fun _ => 7) ⟨42⟩ 3 1 (by decide)
      (fun i hi => by
        obtain rfl : i = 0 := by omega
        rfl)
      rfl⟩

/-- Claim C4: for every error raised by the underlying invocation, the
task-invocation path used by the retry executor — `callCloudFunction` via
`handleError` — rethrows the very same error value to its caller: the
failure is propagated verbatim, never replaced and never swallowed. -/
theorem callCloudFunction_propagates_error (E V : Type) (e : E) :
    callCloudFunction (Except.error e : Except E (CallResult V)) =
      Except.error e ∧
    handleError E V e = Except.error e :=
  ⟨rfl, rfl⟩

/-- Claim C8: the two retry implementations, `callCloudFunctionWithRetry`
in `uniUtils` and `cloudUtils.callWithRetry`, are behaviourally equivalent:
on the same sequence of underlying call outcomes they produce identical
traces — same result, same delays, same number of attempts. -/
theorem callWithRetry_implementations_equivalent {E V : Type}
    (app : Nat → Except E (CallResult V)) (retryCount : Nat) :
    cloudUtils_callWithRetry app retryCount =
      callCloudFunctionWithRetry app retryCount := by
  rw [cloudUtils_callWithRetry, callCloudFunctionWithRetry,
    cloudRetryLoop_eq_retryLoop]
  have hcall : (fun i => cloudUtils_call (app i)) =
      (fun i => callCloudFunction (app i)) := by
    funext i
    cases app i <;> rfl
  rw [hcall]


/-! ### JavaScript value model for the validation and response helpers -/

/-- Model of the JavaScript values relevant to the validation and response
helpers: `undefined`, `null`, booleans, numbers (with `NaN` kept as its own
case), and strings. -/
inductive JSValue
  | vUndefined
  | vNull
  | vBool (b : Bool)
  | vNum (n : Int)
  | vNaN
  | vStr (s : String)
  deriving Repr, DecidableEq

/-- JavaScript truthiness of a `JSValue`: `undefined`, `null`, `false`,
the number `0`, `NaN` and the empty string are falsy; everything else is
truthy. -/
def JSValue.truthy : JSValue → Bool
  | vUndefined => false
  | vNull => false
  | vBool b => b
  | vNum n => n != 0
  | vNaN => false
  | vStr s => s != ""

/-- Strict equality `=== 0` against the number literal `0`: true only for
the number zero (`NaN !== 0`, `false !== 0`, the empty string `!== 0`). -/
def JSValue.strictEqZero : JSValue → Bool
  | vNum n => n == 0
  | _ => false

/-- The record returned by `validateRequiredFields`. -/
structure ValidationResult where
  isValid : Bool
  missingFields : List String
  deriving Repr, DecidableEq

/-- Embedding of `validateRequiredFields` (src/uniapp/uniUtils.ts lines
129-145): the loop pushes, in order, each required field whose value is
falsy (`!data[field]`) and not strictly equal to the number 0
(`data[field] !== 0`); `isValid` is whether no field was pushed. `data`
maps a field name to its value, an absent field reading as `undefined`. -/
def validateRequiredFields (data : String → JSValue)
    (requiredFields : List String) : ValidationResult :=
  let missingFields := requiredFields.filter
    (fun field => !(data field).truthy && !(data field).strictEqZero)
  ⟨missingFields.length == 0, missingFields⟩

/-- Model of the argument of `getResponseData`: either a non-object
JavaScript value or an object carrying `code` and `result` fields (an
absent field reads as `undefined`). -/
inductive Response
  | primitive (v : JSValue)
  | obj (code : JSValue) (result : JSValue)
  deriving Repr, DecidableEq

/-- JavaScript truthiness of a response value; objects are always truthy. -/
def Response.truthy : Response → Bool
  | primitive v => v.truthy
  | obj _ _ => true

/-- The `response.code` property; truthy primitives read `undefined`. -/
def Response.codeField : Response → JSValue
  | primitive _ => JSValue.vUndefined
  | obj c _ => c

/-- The `response.result` property; truthy primitives read `undefined`. -/
def Response.resultField : Response → JSValue
  | primitive _ => JSValue.vUndefined
  | obj _ r => r

/-- Embedding of `getResponseData` (src/uniapp/uniUtils.ts lines 40-45):
returns `response.result` when `response` is truthy and
`response.code === 0`, and `null` otherwise. -/
def getResponseData (response : Response) : JSValue :=
  if response.truthy && response.codeField.strictEqZero then
    response.resultField
  else JSValue.vNull

/-- Embedding of `safeGetResponseData` (src/uniapp/uniUtils.ts lines
53-56): returns `getResponseData response` when it is not `null`
(`data !== null`), and `defaultValue` otherwise. -/
def safeGetResponseData (response : Response) (defaultValue : JSValue) :
    JSValue :=
  let data := getResponseData response
  if data != JSValue.vNull then data else defaultValue

/-- Claim C9: `validateRequiredFields` returns `isValid` true iff
`missingFields` is empty; a field appears in `missingFields` iff it occurs
in `requiredFields` with a falsy value other than the number 0 — so the
number 0 passes validation while the empty string, `false`, `null`,
`undefined` and `NaN` are reported missing — and `missingFields` preserves
the order of `requiredFields` (it is a sublist of it). -/
theorem validateRequiredFields_spec (data : String → JSValue)
    (requiredFields : List String) :
    ((validateRequiredFields data requiredFields).isValid = true ↔
      (validateRequiredFields data requiredFields).missingFields = []) ∧
    (∀ f, f ∈ (validateRequiredFields data requiredFields).missingFields ↔
      f ∈ requiredFields ∧ (data f).truthy = false ∧
        data f ≠ JSValue.vNum 0) ∧
    List.Sublist (validateRequiredFields data requiredFields).missingFields
      requiredFields ∧
    (∀ f, f ∈ requiredFields → data f = JSValue.vNum 0 →
      f ∉ (validateRequiredFields data requiredFields).missingFields) ∧
    (∀ f, f ∈ requiredFields →
      (data f = JSValue.vStr "" ∨ data f = JSValue.vBool false ∨
        data f = JSValue.vNull ∨ data f = JSValue.vUndefined ∨
        data f = JSValue.vNaN) →
      f ∈ (validateRequiredFields data requiredFields).missingFields) := by
  refine ⟨?_, ?_, ?_, ?_, ?_⟩
  · simp [validateRequiredFields, List.length_eq_zero]
  · intro f
    simp only [validateRequiredFields, List.mem_filter, Bool.and_eq_true,
      Bool.not_eq_true']
    constructor
    · rintro ⟨hmem, h1, h2⟩
      refine ⟨hmem, h1, ?_⟩
      intro hcontra
      rw [hcontra] at h2
      simp [JSValue.strictEqZero] at h2
    · rintro ⟨hmem, h1, h2⟩
      refine ⟨hmem, h1, ?_⟩
      cases hdf : data f with
      | vNum n =>
        simp only [JSValue.strictEqZero, beq_eq_false_iff_ne, ne_eq]
        intro h
        subst h
        exact h2 hdf
      | vUndefined => rfl
      | vNull => rfl
      | vBool b => rfl
      | vNaN => rfl
      | vStr s => rfl
  · simp only [validateRequiredFields]
    exact List.filter_sublist requiredFields
  · intro f hmem h0
    simp [validateRequiredFields, List.mem_filter, h0,
      JSValue.strictEqZero]
  · intro f hmem hcase
    rcases hcase with h | h | h | h | h <;>
      simp [validateRequiredFields, List.mem_filter, h, hmem,
        JSValue.truthy, JSValue.strictEqZero]

/-- Witness for C9: with `a` bound to `null` among the required fields
`x, a`, the field `a` is reported missing. -/
theorem validateRequiredFields_spec_witness :
    "a" ∈ (validateRequiredFields
      (fun s => if s = "a" then JSValue.vNull else JSValue.vNum 1)
      ["x", "a"]).missingFields :=
  ((validateRequiredFields_spec
      (fun s => if s = "a" then JSValue.vNull else JSValue.vNum 1)
      ["x", "a"]).2.1 "a").mpr
    ⟨by decide, by decide, by decide⟩

/-- Claim C10: `safeGetResponseData` returns `getResponseData response`
whenever that value is not `null`, and returns `defaultValue` exactly when
it is `null`; in particular, for a response object with `code` 0 whose
`result` field is `undefined`, it returns `undefined` rather than the
supplied default, because only `null` (not `undefined`) triggers the
fallback. -/
theorem safeGetResponseData_spec (response : Response)
    (defaultValue : JSValue) :
    safeGetResponseData response defaultValue =
      (if getResponseData response = JSValue.vNull then defaultValue
       else getResponseData response) ∧
    safeGetResponseData (Response.obj (JSValue.vNum 0) JSValue.vUndefined)
        defaultValue = JSValue.vUndefined := by
  constructor
  · by_cases h : getResponseData response = JSValue.vNull <;>
      simp [safeGetResponseData, h]
  · rfl


/-! ### Timeout racer, modelled from the specification -/

/-- Failure taxonomy of the async core, from the spec (§7): an
`operationFailure` carries the wrapped task's own error; `timeout` is the
distinct kind raised only by the timeout racer. -/
inductive AsyncFailure (E : Type)
  | operationFailure (e : E)
  | timeout
  deriving Repr, DecidableEq

/-- Modelled from the spec: `withTimeout(operation, timeoutMs)` of the
`asyncUtils` module, whose source file is not in the repository snapshot
(§4.2). The raced operation is modelled by the instant `settleMs` at which
it settles and its settled `outcome`; the racer resolves with the
operation's outcome if it settles before the deadline, and otherwise fails
with the distinct `timeout` kind once the deadline elapses, the orphaned
operation's eventual outcome being discarded. -/
def withTimeout {E V : Type} (settleMs : Nat) (outcome : Except E V)
    (timeoutMs : Nat) : Except (AsyncFailure E) V :=
  if settleMs < timeoutMs then
    match outcome with
    | Except.ok v => Except.ok v
    | Except.error e => Except.error (AsyncFailure.operationFailure e)
  else Except.error AsyncFailure.timeout

/-- Claim C7: `withTimeout` produces exactly one outcome: the operation's
own outcome (its failure wrapped as an `operationFailure`) when it settles
before the deadline; otherwise a failure of the `timeout` kind, which is
distinguishable from every `operationFailure`, and in that case the result
does not depend on the orphaned operation's eventual outcome — it is
discarded. -/
theorem withTimeout_spec {E V : Type} (settleMs : Nat)
    (outcome : Except E V) (timeoutMs : Nat) :
    (settleMs < timeoutMs →
      withTimeout settleMs outcome timeoutMs =
        (match outcome with
          | Except.ok v => Except.ok v
          | Except.error e =>
            Except.error (AsyncFailure.operationFailure e))) ∧
    (timeoutMs ≤ settleMs →
      withTimeout settleMs outcome timeoutMs =
        Except.error AsyncFailure.timeout) ∧
    (timeoutMs ≤ settleMs → ∀ outcome2 : Except E V,
      withTimeout settleMs outcome2 timeoutMs =
        withTimeout settleMs outcome timeoutMs) ∧
    (∀ e : E, (AsyncFailure.timeout : AsyncFailure E) ≠
      AsyncFailure.operationFailure e) := by
  refine ⟨?_, ?_, ?_, ?_⟩
  · intro h
    simp [withTimeout, h]
  · intro h
    simp [withTimeout, Nat.not_lt.mpr h]
  · intro h outcome2
    simp [withTimeout, Nat.not_lt.mpr h]
  · intro e hcontra
    exact AsyncFailure.noConfusion hcontra

/-- Witness for C7: an operation settling at 500 ms raced against a 100 ms
deadline fails with the `timeout` kind. -/
theorem withTimeout_spec_witness :
    100 ≤ 500 ∧
    withTimeout 500 (Except.ok 1 : Except Nat Nat) 100 =
      Except.error AsyncFailure.timeout :=
  ⟨by decide, (withTimeout_spec 500 (Except.ok 1) 100).2.1 (by decide)⟩

/-! ### Async memoizer, modelled from the specification -/

/-- State of one memo key, from the spec (§4.6): no entry yet, a shared
in-flight invocation, or a cached value with its expiry instant. -/
inductive MemoState
  | empty
  | inflight
  | cached (expiry : Nat)
  deriving Repr, DecidableEq

/-- Events touching one memo key, in the single-threaded cooperative order
of the spec (§5): a call of the memoized function at an instant, or the
settlement of the shared in-flight invocation at an instant. -/
inductive MemoEvent
  | call (t : Nat)
  | settle (t : Nat)
  deriving Repr, DecidableEq

/-- Modelled from the spec: the per-key behaviour of
`memoizeAsync(fn, keyFn, ttlMs)` of the `asyncUtils` module, whose source
file is not in the repository snapshot (§4.6). A call finding no entry
invokes `fn` and leaves a shared in-flight invocation; a call finding the
in-flight invocation joins it without invoking `fn`; a call finding a
cached entry serves it when the entry is live (`t < expiry`, expiry checked
at read time) and otherwise invokes `fn` afresh; settlement caches the
outcome with expiry `t + ttlMs`. Returns the new state and whether `fn`
was invoked. -/
def memoStep (ttlMs : Nat) (s : MemoState) : MemoEvent → MemoState × Bool
  | MemoEvent.call t =>
    match s with
    | MemoState.empty => (MemoState.inflight, true)
    | MemoState.inflight => (MemoState.inflight, false)
    | MemoState.cached expiry =>
      if t < expiry then (MemoState.cached expiry, false)
      else (MemoState.inflight, true)
  | MemoEvent.settle t =>
    match s with
    | MemoState.inflight => (MemoState.cached (t + ttlMs), false)
    | _ => (s, false)

/-- Runs a sequence of events for one key from state `s`, returning the
final state and the number of invocations of the wrapped `fn`. -/
def memoRun (ttlMs : Nat) (s : MemoState) : List MemoEvent → MemoState × Nat
  | [] => (s, 0)
  | e :: es =>
    ((memoRun ttlMs (memoStep ttlMs s e).1 es).1,
      (if (memoStep ttlMs s e).2 then 1 else 0) +
        (memoRun ttlMs (memoStep ttlMs s e).1 es).2)

/-- Calls arriving while an invocation for the key is in flight join it:
they never invoke `fn`. -/
theorem memoRun_inflight_calls (ttlMs : Nat) (ts : List Nat) :
    memoRun ttlMs MemoState.inflight (ts.map MemoEvent.call) =
      (MemoState.inflight, 0) := by
  induction ts with
  | nil => rfl
  | cons t ts ih => simp [memoRun, memoStep, ih]

/-- Claim C6: when multiple calls for a key arrive concurrently before any
entry exists — that is, before the shared invocation settles — the wrapped
`fn` is invoked exactly once, all calls sharing the single in-flight
invocation; and a call arriving at or after the cached entry's expiry
(`ttlMs` past settlement) triggers a fresh invocation of `fn`. -/
theorem memoizeAsync_spec (ttlMs : Nat) :
    (∀ ts : List Nat, ts ≠ [] →
      memoRun ttlMs MemoState.empty (ts.map MemoEvent.call) =
        (MemoState.inflight, 1)) ∧
    (∀ t0 t1 t2 : Nat, t1 + ttlMs ≤ t2 →
      (memoRun ttlMs MemoState.empty
        [MemoEvent.call t0, MemoEvent.settle t1, MemoEvent.call t2]).2 =
        2) := by
  constructor
  · intro ts hne
    cases ts with
    | nil => exact absurd rfl hne
    | cons t rest =>
      simp [memoRun, memoStep, memoRun_inflight_calls]
  · intro t0 t1 t2 h
    simp [memoRun, memoStep, Nat.not_lt.mpr h]

/-- Witness for C6: two concurrent calls from the empty state invoke `fn`
once; with a 1000 ms TTL, settlement at instant 5 and a call at instant
1005 re-invokes `fn`, for two invocations in total. -/
theorem memoizeAsync_spec_witness :
    ([1, 2] ≠ ([] : List Nat)) ∧
    memoRun 1000 MemoState.empty
        [MemoEvent.call 1, MemoEvent.call 2] =
      (MemoState.inflight, 1) ∧
    5 + 1000 ≤ 1005 ∧
    (memoRun 1000 MemoState.empty
      [MemoEvent.call 0, MemoEvent.settle 5, MemoEvent.call 1005]).2 =
      2 :=
  ⟨by decide, (memoizeAsync_spec 1000).1 [1, 2] (by decide), by decide,
    (memoizeAsync_spec 1000).2 0 5 1005 (by decide)⟩


/-! ### Bounded concurrency runner, modelled from the specification -/

/-- State of the bounded concurrency runner between suspension points: the
indices of the tasks not yet started, in input order; the indices of the
tasks currently in the running state; and one result slot per input task. -/
structure RunState (A : Type) where
  notStarted : List Nat
  running : List Nat
  results : List (Option A)
  deriving Repr, DecidableEq

/-- Modelled from the spec: the admission rule of `runConcurrent(tasks,
limit)` of the `asyncUtils` module, whose source file is not in the
repository snapshot (§4.5): while fewer than `limit` tasks are running and
some task is not yet started, the next not-yet-started task is admitted
into the running set. Returns the new running list and the tasks still not
started. -/
def admitLoop (limit : Nat) : List Nat → List Nat → List Nat × List Nat
  | running, [] => (running, [])
  | running, i :: rest =>
    if running.length < limit then admitLoop limit (running ++ [i]) rest
    else (running, i :: rest)

/-- Admission applied to a runner state. -/
def admitTasks {A : Type} (limit : Nat) (s : RunState A) : RunState A :=
  ⟨(admitLoop limit s.running s.notStarted).2,
    (admitLoop limit s.running s.notStarted).1, s.results⟩

/-- Modelled from the spec: settlement of one running task, chosen by the
scheduler — `choice` selects among the running tasks, so every completion
order is covered (§4.5, "as each finishes ... regardless of completion
order"). The settled task leaves the running set and its outcome, the
corresponding entry of `tasks`, is recorded in its result slot. With
nothing running the instant passes unchanged. -/
def complete {A : Type} (tasks : List A) (choice : Nat) (s : RunState A) :
    RunState A :=
  match s.running.get? (choice % s.running.length) with
  | none => s
  | some i =>
    ⟨s.notStarted, s.running.eraseIdx (choice % s.running.length),
      s.results.set i (tasks.get? i)⟩

/-- One suspension step of the runner: a running task settles and the freed
capacity is immediately refilled by admission. -/
def runStep {A : Type} (tasks : List A) (limit : Nat) (s : RunState A)
    (choice : Nat) : RunState A :=
  admitTasks limit (complete tasks choice s)

/-- Modelled from the spec: `runConcurrent(tasks, limit)` (§4.5) driven by
a completion schedule: the first `limit` tasks are admitted, then the
running tasks chosen by `schedule` settle one per step, each settlement
admitting the next not-yet-started task. Each entry of `tasks` is the
settled outcome of that task, success or failure alike (§4.5: all outcomes
are collected, a failing task never aborts its siblings). -/
def runConcurrent {A : Type} (tasks : List A) (limit : Nat)
    (schedule : List Nat) : RunState A :=
  schedule.foldl (runStep tasks limit)
    (admitTasks limit ⟨List.range tasks.length, [], List.replicate tasks.length none⟩)

/-- Number of tasks not yet settled: running or not yet started. -/
def RunState.unsettled {A : Type} (s : RunState A) : Nat :=
  s.running.length + s.notStarted.length

/-- Invariant of the runner state: task indices are tracked exactly once
and in range, and a result slot is filled with the task's outcome exactly
when the task is neither waiting nor running. -/
structure RunInv {A : Type} (tasks : List A) (s : RunState A) : Prop where
  nodup : (s.running ++ s.notStarted).Nodup
  run_lt : ∀ i ∈ s.running, i < tasks.length
  ns_lt : ∀ i ∈ s.notStarted, i < tasks.length
  len : s.results.length = tasks.length
  slots : ∀ i, i < tasks.length →
    s.results.get? i =
      some (if i ∈ s.running ∨ i ∈ s.notStarted then none
            else tasks.get? i)

/-- Closed form of the admission loop: it moves the longest admissible
head of the waiting list to the end of the running list. -/
theorem admitLoop_eq (limit : Nat) (running ns : List Nat) :
    admitLoop limit running ns =
      (running ++ ns.take (limit - running.length),
        ns.drop (limit - running.length)) := by
  induction ns generalizing running with
  | nil => simp [admitLoop]
  | cons i rest ih =>
    by_cases h : running.length < limit
    · obtain ⟨m, hm⟩ : ∃ m, limit - running.length = m + 1 :=
        ⟨limit - running.length - 1, by omega⟩
      have hm2 : limit - (running ++ [i]).length = m := by
        simp only [List.length_append, List.length_cons,
          List.length_nil]
        omega
      rw [admitLoop, if_pos h, ih, hm, hm2]
      simp [List.append_assoc]
    · have h0 : limit - running.length = 0 := by omega
      rw [admitLoop, if_neg h, h0]
      simp
/-- Admission preserves the runner invariant, keeps the running set within
the limit, saturates the limit unless every task has started, leaves the
number of unsettled tasks unchanged and does not touch the result slots. -/
theorem admitTasks_spec {A : Type} (tasks : List A) (limit : Nat)
    (s : RunState A) (hinv : RunInv tasks s)
    (hbound : s.running.length ≤ limit) :
    RunInv tasks (admitTasks limit s) ∧
    (admitTasks limit s).running.length ≤ limit ∧
    ((admitTasks limit s).running.length = limit ∨
      (admitTasks limit s).notStarted = []) ∧
    (admitTasks limit s).unsettled = s.unsettled ∧
    (admitTasks limit s).results = s.results := by
  have key : admitTasks limit s =
      ⟨s.notStarted.drop (limit - s.running.length),
        s.running ++ s.notStarted.take (limit - s.running.length),
        s.results⟩ := by
    rw [admitTasks, admitLoop_eq]
  rw [key]
  have hmem : ∀ i : Nat,
      (i ∈ s.running ++ s.notStarted.take (limit - s.running.length) ∨
        i ∈ s.notStarted.drop (limit - s.running.length)) ↔
      (i ∈ s.running ∨ i ∈ s.notStarted) := by
    intro i
    rw [List.mem_append, or_assoc, ← List.mem_append,
      List.take_append_drop]
  refine ⟨?_, ?_, ?_, ?_, rfl⟩
  · refine ⟨?_, ?_, ?_, hinv.len, ?_⟩
    · show (s.running ++ s.notStarted.take (limit - s.running.length) ++
        s.notStarted.drop (limit - s.running.length)).Nodup
      rw [List.append_assoc, List.take_append_drop]
      exact hinv.nodup
    · intro i hi
      rcases List.mem_append.mp hi with h | h
      · exact hinv.run_lt i h
      · exact hinv.ns_lt i (List.take_subset _ _ h)
    · intro i hi
      exact hinv.ns_lt i (List.drop_subset _ _ hi)
    · intro i hi
      rw [show (⟨s.notStarted.drop (limit - s.running.length),
          s.running ++ s.notStarted.take (limit - s.running.length),
          s.results⟩ : RunState A).results = s.results from rfl,
        hinv.slots i hi]
      exact congrArg some (if_congr (hmem i).symm rfl rfl)
  · show (s.running ++ _).length ≤ limit
    rw [List.length_append, List.length_take]
    omega
  · show (s.running ++ _).length = limit ∨ _ = []
    by_cases hlong : limit - s.running.length ≤ s.notStarted.length
    · left
      rw [List.length_append, List.length_take]
      omega
    · right
      exact List.drop_eq_nil_of_le (by omega)
  · show (s.running ++ _).length + (s.notStarted.drop _).length =
      s.running.length + s.notStarted.length
    rw [List.length_append, List.length_take, List.length_drop]
    omega

/-- Settlement of a running task preserves the runner invariant, removes
exactly one task from the running set when one is running, and does not
touch the waiting list. -/
theorem complete_spec {A : Type} (tasks : List A) (choice : Nat)
    (s : RunState A) (hinv : RunInv tasks s) :
    RunInv tasks (complete tasks choice s) ∧
    (complete tasks choice s).running.length =
      s.running.length -
        (if s.running.length = 0 then 0 else 1) ∧
    (complete tasks choice s).notStarted = s.notStarted := by
  rcases hg : s.running.get? (choice % s.running.length) with _ | i
  · have hempty : s.running.length = 0 := by
      by_contra hne
      have hj : choice % s.running.length < s.running.length :=
        Nat.mod_lt _ (Nat.pos_of_ne_zero hne)
      rw [List.get?_eq_get hj] at hg
      exact Option.noConfusion hg
    have hcs : complete tasks choice s = s := by
      rw [complete, hg]
    rw [hcs, if_pos hempty]
    exact ⟨hinv, by omega, rfl⟩
  · obtain ⟨hj, hget⟩ := List.get?_eq_some.mp hg
    have hne : ¬ (s.running.length = 0) := by omega
    have hrun_nodup : s.running.Nodup :=
      (List.nodup_append.mp hinv.nodup).1
    have hdisj : ∀ x ∈ s.running, x ∉ s.notStarted :=
      fun x hx => (List.nodup_append.mp hinv.nodup).2.2 hx
    have herase :
        s.running.erase i =
          s.running.eraseIdx (choice % s.running.length) := by
      rw [← hget]
      exact hrun_nodup.erase_get ⟨_, hj⟩
    have hi_mem : i ∈ s.running := hget ▸ List.get_mem _ _ _
    have hi_lt : i < tasks.length := hinv.run_lt i hi_mem
    have hi_not_erase :
        i ∉ s.running.eraseIdx (choice % s.running.length) := by
      rw [← herase]
      exact hrun_nodup.not_mem_erase
    have hmem_erase : ∀ x, x ≠ i →
        (x ∈ s.running.eraseIdx (choice % s.running.length) ↔
          x ∈ s.running) := by
      intro x hx
      rw [← herase]
      exact List.mem_erase_of_ne hx
    have hsub :
        List.Sublist (s.running.eraseIdx (choice % s.running.length))
          s.running := List.eraseIdx_sublist _ _
    have hcs : complete tasks choice s =
        ⟨s.notStarted, s.running.eraseIdx (choice % s.running.length),
          s.results.set i (tasks.get? i)⟩ := by
      rw [complete, hg]
    rw [hcs]
    refine ⟨⟨?_, ?_, ?_, ?_, ?_⟩, ?_, rfl⟩
    · exact hinv.nodup.sublist (hsub.append_right _)
    · intro x hx
      exact hinv.run_lt x (hsub.mem hx)
    · exact hinv.ns_lt
    · show (s.results.set i (tasks.get? i)).length = tasks.length
      rw [List.length_set]
      exact hinv.len
    · intro x hx
      by_cases hxi : x = i
      · subst hxi
        have hxlen : x < s.results.length := hinv.len ▸ hx
        show (s.results.set x (tasks.get? x)).get? x = _
        rw [List.get?_set_of_lt _ _ hxlen, if_pos rfl, if_neg]
        rintro (hc | hc)
        · exact hi_not_erase hc
        · exact hdisj x hi_mem hc
      · have hxlen : x < s.results.length := hinv.len ▸ hx
        show (s.results.set i (tasks.get? i)).get? x = _
        rw [List.get?_set_of_lt _ _ hxlen,
          if_neg (fun h => hxi h.symm), hinv.slots x hx]
        refine congrArg some (if_congr ?_ rfl rfl)
        rw [hmem_erase x hxi]
    · show (s.running.eraseIdx (choice % s.running.length)).length = _
      rw [List.length_eraseIdx, if_pos hj, if_neg hne]
/-- Folding scheduler steps from an invariant, saturated state preserves
the invariant, the limit bound and saturation, and settles one task per
step until none is left. -/
theorem runFold_spec {A : Type} (tasks : List A) (limit : Nat)
    (hlim : 1 ≤ limit) (sched : List Nat) (s : RunState A)
    (hinv : RunInv tasks s) (hbound : s.running.length ≤ limit)
    (hsat : s.running.length = limit ∨ s.notStarted = []) :
    RunInv tasks (sched.foldl (runStep tasks limit) s) ∧
    (sched.foldl (runStep tasks limit) s).running.length ≤ limit ∧
    ((sched.foldl (runStep tasks limit) s).running.length = limit ∨
      (sched.foldl (runStep tasks limit) s).notStarted = []) ∧
    (sched.foldl (runStep tasks limit) s).unsettled =
      s.unsettled - sched.length := by
  induction sched generalizing s with
  | nil => exact ⟨hinv, hbound, hsat, by simp⟩
  | cons c cs ih =>
    obtain ⟨hinv1, hlen1, hns1⟩ := complete_spec tasks c s hinv
    have hbound1 : (complete tasks c s).running.length ≤ limit := by
      omega
    obtain ⟨hinv2, hbound2, hsat2, huns2, _⟩ :=
      admitTasks_spec tasks limit (complete tasks c s) hinv1 hbound1
    have huns1 : (complete tasks c s).unsettled =
        s.unsettled - (if s.running.length = 0 then 0 else 1) := by
      have hle : (if s.running.length = 0 then 0 else 1) ≤
          s.running.length := by
        split <;> omega
      rw [RunState.unsettled, RunState.unsettled, hlen1, hns1]
      omega
    have hu : s.unsettled = s.running.length + s.notStarted.length := rfl
    have hrs : runStep tasks limit s c =
        admitTasks limit (complete tasks c s) := rfl
    rw [List.foldl_cons, hrs]
    have h3 := ih (admitTasks limit (complete tasks c s)) hinv2 hbound2 hsat2
    refine ⟨h3.1, h3.2.1, h3.2.2.1, ?_⟩
    rw [h3.2.2.2, huns2, huns1]
    simp only [List.length_cons]
    rcases Nat.eq_zero_or_pos s.running.length with h0 | h0
    · have hns0 : s.notStarted.length = 0 := by
        rcases hsat with hs | hs
        · omega
        · rw [hs]
          rfl
      rw [if_pos h0]
      omega
    · rw [if_neg (by omega : ¬ (s.running.length = 0))]
      omega

/-- The pre-admission initial state of the runner satisfies the
invariant: nothing runs, every task waits and every slot is unfilled. -/
theorem runInit_inv {A : Type} (tasks : List A) :
    RunInv tasks
      ⟨List.range tasks.length, [], List.replicate tasks.length none⟩ := by
  refine ⟨?_, ?_, ?_, ?_, ?_⟩
  · show (([] : List Nat) ++ List.range tasks.length).Nodup
    rw [List.nil_append]
    exact List.nodup_range _
  · intro i hi
    exact absurd hi (List.not_mem_nil i)
  · intro i hi
    exact List.mem_range.mp hi
  · exact List.length_replicate _ _
  · intro i hi
    show (List.replicate tasks.length (none : Option A)).get? i =
      some (if i ∈ ([] : List Nat) ∨ i ∈ List.range tasks.length then none
            else tasks.get? i)
    rw [if_pos (Or.inr (List.mem_range.mpr hi)), List.get?_eq_getElem?]
    simp [hi]

/-- Claim C5: for every task list, concurrency limit `k ≥ 1` and
completion schedule long enough to settle every task, at no suspension
instant are more than `k` tasks in the running state, and the returned
result sequence has one slot per task with slot `i` holding exactly the
outcome of task `i`, regardless of the completion order the schedule
chooses. -/
theorem runConcurrent_spec {A : Type} (tasks : List A) (limit : Nat)
    (schedule : List Nat) (hlim : 1 ≤ limit)
    (hsched : tasks.length ≤ schedule.length) :
    (∀ k : Nat,
      (runConcurrent tasks limit (schedule.take k)).running.length ≤
        limit) ∧
    (runConcurrent tasks limit schedule).results.length = tasks.length ∧
    (∀ i, i < tasks.length →
      (runConcurrent tasks limit schedule).results.get? i =
        some (tasks.get? i)) := by
  have hinv0 := runInit_inv tasks
  have hbound0 : (⟨List.range tasks.length, [],
      List.replicate tasks.length none⟩ : RunState A).running.length ≤
      limit := by
    show ([] : List Nat).length ≤ limit
    simp
  obtain ⟨hinv1, hbound1, hsat1, huns1, _⟩ :=
    admitTasks_spec tasks limit _ hinv0 hbound0
  have hrc : ∀ sch : List Nat, runConcurrent tasks limit sch =
      sch.foldl (runStep tasks limit)
        (admitTasks limit ⟨List.range tasks.length, [],
          List.replicate tasks.length none⟩) := fun _ => rfl
  refine ⟨?_, ?_, ?_⟩
  · intro k
    rw [hrc]
    exact (runFold_spec tasks limit hlim (schedule.take k) _ hinv1 hbound1
      hsat1).2.1
  · rw [hrc]
    exact (runFold_spec tasks limit hlim schedule _ hinv1 hbound1
      hsat1).1.len
  · intro i hi
    obtain ⟨hinvF, _, _, hunsF⟩ :=
      runFold_spec tasks limit hlim schedule _ hinv1 hbound1 hsat1
    have hzero : (schedule.foldl (runStep tasks limit)
        (admitTasks limit ⟨List.range tasks.length, [],
          List.replicate tasks.length none⟩)).unsettled = 0 := by
      rw [hunsF, huns1]
      have h2 : (⟨List.range tasks.length, [],
          List.replicate tasks.length none⟩ : RunState A).unsettled =
          tasks.length := by
        show ([] : List Nat).length + (List.range tasks.length).length =
          tasks.length
        simp
      rw [h2]
      omega
    have hsum : (schedule.foldl (runStep tasks limit)
        (admitTasks limit ⟨List.range tasks.length, [],
          List.replicate tasks.length none⟩)).running.length +
        (schedule.foldl (runStep tasks limit)
          (admitTasks limit ⟨List.range tasks.length, [],
            List.replicate tasks.length none⟩)).notStarted.length = 0 :=
      hzero
    have hrun : (schedule.foldl (runStep tasks limit)
        (admitTasks limit ⟨List.range tasks.length, [],
          List.replicate tasks.length none⟩)).running = [] :=
      List.length_eq_zero.mp (by omega)
    have hns : (schedule.foldl (runStep tasks limit)
        (admitTasks limit ⟨List.range tasks.length, [],
          List.replicate tasks.length none⟩)).notStarted = [] :=
      List.length_eq_zero.mp (by omega)
    rw [hrc, hinvF.slots i hi, hrun, hns]
    simp

/-- Witness for C5: three tasks with outcomes 10, 20, 30 run under limit 2
with the schedule always settling the longest-running task; never more
than 2 run at once and the result slots match the tasks in order. -/
theorem runConcurrent_spec_witness :
    1 ≤ 2 ∧ ([10, 20, 30] : List Nat).length ≤ ([0, 0, 0] : List Nat).length ∧
    ((∀ k : Nat,
      (runConcurrent [10, 20, 30] 2 ([0, 0, 0].take k)).running.length ≤
        2) ∧
    (runConcurrent [10, 20, 30] 2 [0, 0, 0]).results.length =
      ([10, 20, 30] : List Nat).length ∧
    (∀ i, i < ([10, 20, 30] : List Nat).length →
      (runConcurrent [10, 20, 30] 2 [0, 0, 0]).results.get? i =
        some (([10, 20, 30] : List Nat).get? i))) :=
  ⟨by decide, by decide,
    runConcurrent_spec [10, 20, 30] 2 [0, 0, 0] (by decide) (by decide)⟩

end AllahbinUtils
